import Mathlib

/-!
A shallow embedding of the LWC decorator registration pipeline
(`src/packages/@lwc/engine/src/framework/decorators/register.ts`) together
with theorems about its behaviour.

The embedding models:
  * JavaScript property descriptors and prototype objects (association lists
    keyed by property name, first match wins, `defineProperty` replaces in
    place or appends);
  * the compiler-emitted metadata record `RegisterDecoratorMeta`;
  * the validation functions (`validateAccessorDecoratedWithApi`, etc.),
    which in non-production mode abort registration with a diagnostic
    (modelled as `Except String`);
  * `registerDecorators` itself, threading the prototype and a global
    `EngineState` (the decorator-meta registry plus the log of calls made
    into the wiring subsystem); a thrown assertion is modelled as an
    `Except.error` carrying the message and the state at the throw point;
  * `getDecoratorsMeta` / `setDecoratorsMeta` over the registry.

The descriptor factories `createPublicPropertyDescriptor`,
`createPublicAccessorDescriptor`, `internalTrackDecorator`,
`internalWireFieldDecorator`, and the wiring entry points
`storeWiredFieldMeta` / `storeWiredMethodMeta` live in repository modules
that are not part of the provided sources; they are modelled from the spec
(see their doc comments).
-/

namespace LWC

/-- Tags identifying the runtime-synthesized getter/setter functions produced
by the descriptor factories, and user-authored functions (by an opaque id). -/
inductive FnTag where
  | publicGet (name : String)
  | publicSet (name : String)
  | accessorGet (name : String)
  | accessorSet (name : String)
  | wireGet (name : String)
  | wireSet (name : String)
  | trackGet (name : String)
  | trackSet (name : String)
  | user (id : Nat)
deriving DecidableEq, Repr

/-- A JavaScript value, as far as this layer observes them: `undefined`,
numbers, booleans, strings, function references (tagged), and the opaque
result of invoking a getter. -/
inductive JSValue where
  | undef
  | num (n : Int)
  | boolean (b : Bool)
  | str (s : String)
  | func (tag : FnTag)
  | getterCall (g : JSValue)
deriving DecidableEq, Repr

/-- `isFunction` from `shared/language`, lifted to an optional descriptor
slot (`none` models an absent slot, i.e. the value `undefined`). -/
def isFunction : Option JSValue → Bool
  | some (JSValue.func _) => true
  | _ => false

/-- `isFalse` from `shared/language` applied to the optional `writable`
attribute: true exactly when the attribute is explicitly `false`. -/
def isFalse : Option Bool → Bool
  | some false => true
  | _ => false

/-- A JavaScript property descriptor restricted to the attributes this layer
inspects: `value`, `get`, `set`, `writable` (each possibly absent). -/
structure PropertyDescriptor where
  value : Option JSValue := none
  get : Option JSValue := none
  set : Option JSValue := none
  writable : Option Bool := none
deriving DecidableEq, Repr

/-- A prototype object: ordered association list of own property
descriptors. -/
abbrev Prototype := List (String × PropertyDescriptor)

/-- `getOwnPropertyDescriptor(proto, name)`: first binding for `name`. -/
def protoLookup : Prototype → String → Option PropertyDescriptor
  | [], _ => none
  | (k, d) :: rest, name => if k = name then some d else protoLookup rest name

/-- `defineProperty(proto, name, d)`: replace the existing binding in place,
or append a new one (JS keeps an existing key's position). -/
def protoDefine : Prototype → String → PropertyDescriptor → Prototype
  | [], name, d => [(name, d)]
  | (k, v) :: rest, name, d =>
    if k = name then (name, d) :: rest else (k, v) :: protoDefine rest name d

/-- `proto[name]`: property access; invokes the getter when the binding is an
accessor, otherwise yields the data value (or `undefined`). -/
def protoGetValue (proto : Prototype) (name : String) : JSValue :=
  match protoLookup proto name with
  | none => JSValue.undef
  | some d =>
    match d.get with
    | some g => JSValue.getterCall g
    | none => d.value.getD JSValue.undef

/-- A component constructor, identified by reference (opaque id). -/
abbrev Ctor := Nat

/-- `PropType` values as the compiler emits them: `Field = 0`, `Set = 1`,
`Get = 2`, `GetSet = 3`. -/
def PropTypeField : Nat := 0

def PropTypeSet : Nat := 1

def PropTypeGet : Nat := 2

def PropTypeGetSet : Nat := 3

/-- A `publicProps` entry: the compiler-assigned kind (`config`, a `PropType`
number) and the declared type string. -/
structure PropCompilerDef where
  config : Nat
  type : String := ""
deriving DecidableEq, Repr

/-- A `wire` entry: optional `method` flag (an arbitrary JS value; the code
compares it against the number `1` with strict equality), the adapter
constructor reference and the config callback reference (opaque ids). -/
structure WireCompilerDef where
  method : Option JSValue := none
  adapter : Nat
  config : Nat
deriving DecidableEq, Repr

/-- The compiler-emitted metadata record passed to `registerDecorators`.
Record-valued members are ordered association lists (JS string-keyed objects
iterate in insertion order); each member is absent (`none`) when the
compiler emitted no decorators of that category. -/
structure RegisterDecoratorMeta where
  publicMethods : Option (List String) := none
  publicProps : Option (List (String × PropCompilerDef)) := none
  track : Option (List String) := none
  wire : Option (List (String × WireCompilerDef)) := none
  fields : Option (List String) := none
deriving DecidableEq, Repr

/-- The resolved per-class metadata stored in the registry. -/
structure DecoratorMeta where
  apiMethods : List String
  apiFields : List String
  wiredMethods : List String
  wiredFields : List String
  fields : Option (List String) := none
deriving DecidableEq, Repr

/-- The shared default value returned for classes never registered. -/
def defaultMeta : DecoratorMeta :=
  { apiMethods := [], apiFields := [], wiredMethods := [], wiredFields := [] }

/-- One recorded `storeWiredFieldMeta(ctor, name, adapter, config)` call. -/
structure WiredFieldCall where
  ctor : Ctor
  name : String
  adapter : Nat
  config : Nat
deriving DecidableEq, Repr

/-- One recorded `storeWiredMethodMeta(ctor, name, adapter, method, config)`
call; `methodFn` is the value of `proto[name]` at call time. -/
structure WiredMethodCall where
  ctor : Ctor
  name : String
  adapter : Nat
  methodFn : JSValue
  config : Nat
deriving DecidableEq, Repr

/-- The process-wide mutable state this layer touches: the decorator-meta
registry (`signedDecoratorToMetaMap`) and the log of registration calls made
into the wiring subsystem. -/
structure EngineState where
  registry : List (Ctor × DecoratorMeta)
  wiredFieldCalls : List WiredFieldCall
  wiredMethodCalls : List WiredMethodCall
deriving DecidableEq, Repr

/-- The state at process start: empty registry, no wiring calls. -/
def emptyEngineState : EngineState :=
  { registry := [], wiredFieldCalls := [], wiredMethodCalls := [] }

/-- `Map.get` on the registry. -/
def registryLookup : List (Ctor × DecoratorMeta) → Ctor → Option DecoratorMeta
  | [], _ => none
  | (k, m) :: rest, c => if k = c then some m else registryLookup rest c

/-- `Map.set` on the registry: overwrite in place or append. -/
def registrySet : List (Ctor × DecoratorMeta) → Ctor → DecoratorMeta →
    List (Ctor × DecoratorMeta)
  | [], c, m => [(c, m)]
  | (k, v) :: rest, c, m =>
    if k = c then (c, m) :: rest else (k, v) :: registrySet rest c m

/-- `setDecoratorsMeta(Ctor, meta)`: write the resolved meta into the
registry. -/
def setDecoratorsMeta (ctor : Ctor) (meta : DecoratorMeta) (st : EngineState) :
    EngineState :=
  { st with registry := registrySet st.registry ctor meta }

/-- `getDecoratorsMeta(Ctor)`: the registered metadata, or the shared default
value when the class was never registered. -/
def getDecoratorsMeta (ctor : Ctor) (st : EngineState) : DecoratorMeta :=
  match registryLookup st.registry ctor with
  | none => defaultMeta
  | some meta => meta

/-- `storeWiredFieldMeta(Ctor, fieldName, adapter, configCallback)` —
Modelled from the spec: the sole write path into the wiring subsystem's
per-class binding table for fields (§6); the call and its arguments are
recorded. -/
def storeWiredFieldMeta (ctor : Ctor) (name : String) (adapter config : Nat)
    (st : EngineState) : EngineState :=
  { st with wiredFieldCalls :=
      st.wiredFieldCalls ++ [{ ctor := ctor, name := name, adapter := adapter,
                               config := config }] }

/-- `storeWiredMethodMeta(Ctor, methodName, adapter, method, configCallback)`
— Modelled from the spec: the sole write path into the wiring subsystem's
per-class binding table for methods (§6); the call and its arguments
(including the method function taken from the prototype) are recorded. -/
def storeWiredMethodMeta (ctor : Ctor) (name : String) (adapter : Nat)
    (methodFn : JSValue) (config : Nat) (st : EngineState) : EngineState :=
  { st with wiredMethodCalls :=
      st.wiredMethodCalls ++ [{ ctor := ctor, name := name, adapter := adapter,
                                methodFn := methodFn, config := config }] }

/-- `createPublicPropertyDescriptor(name)` — Modelled from the spec (§4.2,
`@lwc/engine` `decorators/api.ts` is not among the provided sources): a
get/set accessor pair over a private backing slot; `set` triggers
invalidation. -/
def createPublicPropertyDescriptor (name : String) : PropertyDescriptor :=
  { get := some (JSValue.func (FnTag.publicGet name)),
    set := some (JSValue.func (FnTag.publicSet name)) }

/-- `createPublicAccessorDescriptor(name, descriptor)` — Modelled from the
spec (§4.2, `decorators/api.ts` is not among the provided sources): wraps
the user-authored getter (always) and setter (only when present) so the
setter still triggers invalidation. In production mode the original
descriptor can be absent; the wrapper then has no setter to wrap. -/
def createPublicAccessorDescriptor (name : String)
    (descriptor : Option PropertyDescriptor) : PropertyDescriptor :=
  { get := some (JSValue.func (FnTag.accessorGet name)),
    set :=
      match descriptor with
      | some d =>
        if d.set.isSome then some (JSValue.func (FnTag.accessorSet name))
        else none
      | none => none }

/-- `internalTrackDecorator(name)` — Modelled from the spec (§4.3,
`decorators/track.ts` is not among the provided sources): a reactive get/set
pair; write triggers invalidation; not part of the public API surface. -/
def internalTrackDecorator (name : String) : PropertyDescriptor :=
  { get := some (JSValue.func (FnTag.trackGet name)),
    set := some (JSValue.func (FnTag.trackSet name)) }

/-- `internalWireFieldDecorator(name)` — Modelled from the spec (§4.4,
`decorators/wire.ts` is not among the provided sources): `get` returns the
most recently delivered value, `set` raises the wired-field-misuse error. -/
def internalWireFieldDecorator (name : String) : PropertyDescriptor :=
  { get := some (JSValue.func (FnTag.wireGet name)),
    set := some (JSValue.func (FnTag.wireSet name)) }

/-- `validateObservedField`: in dev mode, fail when an own descriptor exists
for an observed field name. -/
def validateObservedField (dev : Bool) (proto : Prototype)
    (fieldName : String) : Except String Unit :=
  if dev then
    match protoLookup proto fieldName with
    | some _ =>
      Except.error ("Compiler Error: Invalid field " ++ fieldName ++
        " declaration.")
    | none => Except.ok ()
  else Except.ok ()

/-- `validateFieldDecoratedWithTrack`: in dev mode, fail when an own
descriptor exists for a tracked field name. -/
def validateFieldDecoratedWithTrack (dev : Bool) (proto : Prototype)
    (fieldName : String) : Except String Unit :=
  if dev then
    match protoLookup proto fieldName with
    | some _ =>
      Except.error ("Compiler Error: Invalid @track " ++ fieldName ++
        " declaration.")
    | none => Except.ok ()
  else Except.ok ()

/-- `validateFieldDecoratedWithWire`: in dev mode, fail when an own
descriptor exists for a wired field name. -/
def validateFieldDecoratedWithWire (dev : Bool) (proto : Prototype)
    (fieldName : String) : Except String Unit :=
  if dev then
    match protoLookup proto fieldName with
    | some _ =>
      Except.error ("Compiler Error: Invalid @wire(...) " ++ fieldName ++
        " field declaration.")
    | none => Except.ok ()
  else Except.ok ()

/-- `validateMethodDecoratedWithWire`: in dev mode, fail unless an own
descriptor exists whose `value` is a function and whose `writable` is not
explicitly `false`. -/
def validateMethodDecoratedWithWire (dev : Bool) (proto : Prototype)
    (methodName : String) : Except String Unit :=
  if dev then
    match protoLookup proto methodName with
    | none =>
      Except.error ("Compiler Error: Invalid @wire(...) " ++ methodName ++
        " method declaration.")
    | some descriptor =>
      if !isFunction descriptor.value || isFalse descriptor.writable then
        Except.error ("Compiler Error: Invalid @wire(...) " ++ methodName ++
          " method declaration.")
      else Except.ok ()
  else Except.ok ()

/-- `validateFieldDecoratedWithApi`: in dev mode, fail when an own descriptor
exists for a Field-kind public prop name. -/
def validateFieldDecoratedWithApi (dev : Bool) (proto : Prototype)
    (fieldName : String) : Except String Unit :=
  if dev then
    match protoLookup proto fieldName with
    | some _ =>
      Except.error ("Compiler Error: Invalid @api " ++ fieldName ++
        " field declaration.")
    | none => Except.ok ()
  else Except.ok ()

/-- `validateAccessorDecoratedWithApi`: in dev mode, an own descriptor must
exist; a function-valued `set` without a function-valued `get` is rejected;
a descriptor with neither accessor function is rejected. -/
def validateAccessorDecoratedWithApi (dev : Bool) (ctor : Ctor)
    (proto : Prototype) (fieldName : String) : Except String Unit :=
  if dev then
    match protoLookup proto fieldName with
    | none =>
      Except.error ("Compiler Error: Invalid @api get " ++ fieldName ++
        " accessor declaration.")
    | some descriptor =>
      if isFunction descriptor.set then
        if isFunction descriptor.get then Except.ok ()
        else
          Except.error ("Compiler Error: Missing getter for property " ++
            fieldName ++ " decorated with @api in " ++ toString ctor ++
            ". You cannot have a setter without the corresponding getter.")
      else if !isFunction descriptor.get then
        Except.error ("Compiler Error: Missing @api get " ++ fieldName ++
          " accessor declaration.")
      else Except.ok ()
  else Except.ok ()

/-- `validateMethodDecoratedWithApi`: in dev mode, fail unless an own
descriptor exists whose `value` is a function and whose `writable` is not
explicitly `false`. -/
def validateMethodDecoratedWithApi (dev : Bool) (proto : Prototype)
    (methodName : String) : Except String Unit :=
  if dev then
    match protoLookup proto methodName with
    | none =>
      Except.error ("Compiler Error: Invalid @api " ++ methodName ++
        " method declaration.")
    | some descriptor =>
      if !isFunction descriptor.value || isFalse descriptor.writable then
        Except.error ("Compiler Error: Invalid @api " ++ methodName ++
          " method declaration.")
      else Except.ok ()
  else Except.ok ()

/-- The `publicProps` loop of `registerDecorators`: validates each entry by
kind (`config > 0` accessor, otherwise field), installs the corresponding
public descriptor and appends the name to `apiFields`. A validation failure
aborts, carrying the prototype as mutated so far. -/
def processPublicProps (dev : Bool) (ctor : Ctor) :
    List (String × PropCompilerDef) → Prototype → List String →
    Except (String × Prototype) (Prototype × List String)
  | [], proto, apiFields => Except.ok (proto, apiFields)
  | (fieldName, propConfig) :: rest, proto, apiFields =>
    if propConfig.config > 0 then
      match validateAccessorDecoratedWithApi dev ctor proto fieldName with
      | Except.error e => Except.error (e, proto)
      | Except.ok () =>
        let descriptor :=
          createPublicAccessorDescriptor fieldName (protoLookup proto fieldName)
        processPublicProps dev ctor rest (protoDefine proto fieldName descriptor)
          (apiFields ++ [fieldName])
    else
      match validateFieldDecoratedWithApi dev proto fieldName with
      | Except.error e => Except.error (e, proto)
      | Except.ok () =>
        processPublicProps dev ctor rest
          (protoDefine proto fieldName (createPublicPropertyDescriptor fieldName))
          (apiFields ++ [fieldName])

/-- The `publicMethods` loop: validates each name and appends it to
`apiMethods`; no prototype mutation. -/
def processPublicMethods (dev : Bool) (proto : Prototype) :
    List String → List String → Except String (List String)
  | [], apiMethods => Except.ok apiMethods
  | methodName :: rest, apiMethods =>
    match validateMethodDecoratedWithApi dev proto methodName with
    | Except.error e => Except.error e
    | Except.ok () => processPublicMethods dev proto rest (apiMethods ++ [methodName])

/-- The `wire` loop: for each entry, `method === 1` dispatches to the method
branch (validate, append to `wiredMethods`, `storeWiredMethodMeta` with
`proto[name]`; no prototype mutation), otherwise the field branch (validate,
`storeWiredFieldMeta`, append to `wiredFields`, install the wire-field
descriptor). A failure aborts, carrying prototype and state at the throw. -/
def processWire (dev : Bool) (ctor : Ctor) :
    List (String × WireCompilerDef) → Prototype → EngineState →
    List String → List String →
    Except (String × Prototype × EngineState)
      (Prototype × EngineState × List String × List String)
  | [], proto, st, wiredMethods, wiredFields =>
    Except.ok (proto, st, wiredMethods, wiredFields)
  | (fieldOrMethodName, wdef) :: rest, proto, st, wiredMethods, wiredFields =>
    if wdef.method = some (JSValue.num 1) then
      match validateMethodDecoratedWithWire dev proto fieldOrMethodName with
      | Except.error e => Except.error (e, proto, st)
      | Except.ok () =>
        processWire dev ctor rest proto
          (storeWiredMethodMeta ctor fieldOrMethodName wdef.adapter
            (protoGetValue proto fieldOrMethodName) wdef.config st)
          (wiredMethods ++ [fieldOrMethodName]) wiredFields
    else
      match validateFieldDecoratedWithWire dev proto fieldOrMethodName with
      | Except.error e => Except.error (e, proto, st)
      | Except.ok () =>
        processWire dev ctor rest
          (protoDefine proto fieldOrMethodName
            (internalWireFieldDecorator fieldOrMethodName))
          (storeWiredFieldMeta ctor fieldOrMethodName wdef.adapter wdef.config st)
          wiredMethods (wiredFields ++ [fieldOrMethodName])

/-- The `track` loop: validates each name and installs the track
descriptor. -/
def processTrack (dev : Bool) :
    List String → Prototype → Except (String × Prototype) Prototype
  | [], proto => Except.ok proto
  | fieldName :: rest, proto =>
    match validateFieldDecoratedWithTrack dev proto fieldName with
    | Except.error e => Except.error (e, proto)
    | Except.ok () =>
      processTrack dev rest (protoDefine proto fieldName
        (internalTrackDecorator fieldName))

/-- The `fields` (observed fields) loop: validation only. -/
def processFields (dev : Bool) (proto : Prototype) :
    List String → Except String Unit
  | [] => Except.ok ()
  | fieldName :: rest =>
    match validateObservedField dev proto fieldName with
    | Except.error e => Except.error e
    | Except.ok () => processFields dev proto rest

/-- `registerDecorators(Ctor, meta)`: runs the five category loops in order
(publicProps, publicMethods, wire, track, fields), then stores the resolved
`DecoratorMeta` into the registry. An absent category (`none`) is skipped —
iterating the empty list is the same. A thrown assertion surfaces as
`Except.error` carrying the message, the prototype and the engine state as
mutated up to the throw point. `dev` is `process.env.NODE_ENV !==
'production'`. -/
def registerDecorators (dev : Bool) (ctor : Ctor) (proto : Prototype)
    (meta : RegisterDecoratorMeta) (st : EngineState) :
    Except (String × Prototype × EngineState) (Prototype × EngineState) :=
  match processPublicProps dev ctor (meta.publicProps.getD []) proto [] with
  | Except.error (e, proto1) => Except.error (e, proto1, st)
  | Except.ok (proto1, apiFields) =>
    match processPublicMethods dev proto1 (meta.publicMethods.getD []) [] with
    | Except.error e => Except.error (e, proto1, st)
    | Except.ok apiMethods =>
      match processWire dev ctor (meta.wire.getD []) proto1 st [] [] with
      | Except.error (e, proto2, st2) => Except.error (e, proto2, st2)
      | Except.ok (proto2, st2, wiredMethods, wiredFields) =>
        match processTrack dev (meta.track.getD []) proto2 with
        | Except.error (e, proto3) => Except.error (e, proto3, st2)
        | Except.ok proto3 =>
          match processFields dev proto3 (meta.fields.getD []) with
          | Except.error e => Except.error (e, proto3, st2)
          | Except.ok () =>
            Except.ok (proto3,
              setDecoratorsMeta ctor
                { apiMethods := apiMethods, apiFields := apiFields,
                  wiredMethods := wiredMethods, wiredFields := wiredFields,
                  fields := meta.fields } st2)

/-- Whether a `wire` entry is dispatched to the method branch: the code
compares the `method` flag against the number `1` with strict equality. -/
def isWireMethodEntry (e : String × WireCompilerDef) : Bool :=
  e.2.method = some (JSValue.num 1)

/-- The wired-field call record a field-form `wire` entry produces. -/
def wiredFieldCallOf (ctor : Ctor) (e : String × WireCompilerDef) :
    WiredFieldCall :=
  { ctor := ctor, name := e.1, adapter := e.2.adapter, config := e.2.config }

/-- The resolved metadata as a pure function of the compiler metadata: on a
successful registration the stored `DecoratorMeta` is exactly this. -/
def resolveMeta (meta : RegisterDecoratorMeta) : DecoratorMeta :=
  { apiMethods := meta.publicMethods.getD [],
    apiFields := (meta.publicProps.getD []).map (fun p => p.1),
    wiredMethods :=
      ((meta.wire.getD []).filter isWireMethodEntry).map (fun w => w.1),
    wiredFields :=
      ((meta.wire.getD []).filter
        (fun w => !isWireMethodEntry w)).map (fun w => w.1),
    fields := meta.fields }

/-- The descriptor states that make `validateAccessorDecoratedWithApi` fail
for the cases the spec singles out: no own descriptor at all, or a
function-valued `set` without a function-valued `get`. -/
def accessorInvalidDesc : Option PropertyDescriptor → Prop
  | none => True
  | some d => isFunction d.set = true ∧ isFunction d.get = false

instance (d : Option PropertyDescriptor) : Decidable (accessorInvalidDesc d) := by
  cases d with
  | none => exact isTrue trivial
  | some d => exact inferInstanceAs (Decidable (_ ∧ _))

/-- The descriptor states that make the method validations fail: no own
descriptor, a non-function `value`, or `writable` explicitly `false`. -/
def methodInvalidDesc : Option PropertyDescriptor → Prop
  | none => True
  | some d => isFunction d.value = false ∨ isFalse d.writable = true

instance (d : Option PropertyDescriptor) : Decidable (methodInvalidDesc d) := by
  cases d with
  | none => exact isTrue trivial
  | some d => exact inferInstanceAs (Decidable (_ ∨ _))

/-! ### Basic lemmas about the prototype and registry maps -/

theorem protoLookup_protoDefine_self (p : Prototype) (n : String)
    (d : PropertyDescriptor) : protoLookup (protoDefine p n d) n = some d := by
  induction p with
  | nil => simp [protoDefine, protoLookup]
  | cons hd tl ih =>
    obtain ⟨k, v⟩ := hd
    by_cases hk : k = n
    · simp [protoDefine, hk, protoLookup]
    · simp [protoDefine, hk, protoLookup, ih]

theorem protoLookup_protoDefine_ne (p : Prototype) (n m : String)
    (d : PropertyDescriptor) (h : m ≠ n) :
    protoLookup (protoDefine p n d) m = protoLookup p m := by
  have hnm : ¬(n = m) := fun hh => h hh.symm
  induction p with
  | nil => simp [protoDefine, protoLookup, hnm]
  | cons hd tl ih =>
    obtain ⟨k, v⟩ := hd
    by_cases hk : k = n
    · subst hk
      simp [protoDefine, protoLookup, hnm]
    · by_cases hm : k = m
      · simp [protoDefine, hk, protoLookup, hm, h]
      · simp [protoDefine, hk, protoLookup, hm, ih]

theorem registryLookup_registrySet_self (reg : List (Ctor × DecoratorMeta))
    (c : Ctor) (m : DecoratorMeta) :
    registryLookup (registrySet reg c m) c = some m := by
  induction reg with
  | nil => simp [registrySet, registryLookup]
  | cons hd tl ih =>
    obtain ⟨k, v⟩ := hd
    by_cases hk : k = c
    · simp [registrySet, hk, registryLookup]
    · simp [registrySet, hk, registryLookup, ih]

/-! ### The successful-run equations of the category loops -/

theorem processPublicProps_ok_apiFields (dev : Bool) (ctor : Ctor)
    (entries : List (String × PropCompilerDef)) (proto p' : Prototype)
    (acc af : List String)
    (h : processPublicProps dev ctor entries proto acc = Except.ok (p', af)) :
    af = acc ++ entries.map (fun e => e.1) := by
  induction entries generalizing proto acc with
  | nil =>
    simp [processPublicProps] at h
    simp [h.2]
  | cons hd tl ih =>
    obtain ⟨fieldName, propConfig⟩ := hd
    simp only [processPublicProps] at h
    split at h
    · split at h
      · exact absurd h (by simp)
      · have := ih _ _ h
        simpa using this
    · split at h
      · exact absurd h (by simp)
      · have := ih _ _ h
        simpa using this

theorem processPublicMethods_ok (dev : Bool) (proto : Prototype)
    (names : List String) (acc r : List String)
    (h : processPublicMethods dev proto names acc = Except.ok r) :
    r = acc ++ names := by
  induction names generalizing acc with
  | nil =>
    simp [processPublicMethods] at h
    simp [h]
  | cons hd tl ih =>
    simp only [processPublicMethods] at h
    split at h
    · exact absurd h (by simp)
    · have := ih _ h
      simpa using this

theorem processWire_ok_eq (dev : Bool) (ctor : Ctor)
    (entries : List (String × WireCompilerDef)) (proto p' : Prototype)
    (st st' : EngineState) (wm wf wm' wf' : List String)
    (h : processWire dev ctor entries proto st wm wf =
      Except.ok (p', st', wm', wf')) :
    wm' = wm ++ (entries.filter isWireMethodEntry).map (fun e => e.1) ∧
    wf' = wf ++ (entries.filter (fun e => !isWireMethodEntry e)).map
      (fun e => e.1) ∧
    st'.wiredFieldCalls = st.wiredFieldCalls ++
      (entries.filter (fun e => !isWireMethodEntry e)).map
        (wiredFieldCallOf ctor) ∧
    st'.registry = st.registry := by
  induction entries generalizing proto st wm wf with
  | nil =>
    simp [processWire] at h
    obtain ⟨h1, h2, h3, h4⟩ := h
    simp [← h2, ← h3, ← h4]
  | cons hd tl ih =>
    obtain ⟨name, wdef⟩ := hd
    simp only [processWire] at h
    split at h
    · rename_i hm
      split at h
      · exact absurd h (by simp)
      · have := ih _ _ _ _ h
        have hM : isWireMethodEntry (name, wdef) = true := by
          simp [isWireMethodEntry, hm]
        simpa [hM, storeWiredMethodMeta] using this
    · rename_i hm
      split at h
      · exact absurd h (by simp)
      · have := ih _ _ _ _ h
        have hM : isWireMethodEntry (name, wdef) = false := by
          simp [isWireMethodEntry]
          intro hc
          exact absurd hc hm
        simpa [hM, storeWiredFieldMeta, wiredFieldCallOf] using this

theorem processWire_error_registry (dev : Bool) (ctor : Ctor)
    (entries : List (String × WireCompilerDef)) (proto p' : Prototype)
    (st s' : EngineState) (wm wf : List String) (e : String)
    (h : processWire dev ctor entries proto st wm wf =
      Except.error (e, p', s')) :
    s'.registry = st.registry := by
  induction entries generalizing proto st wm wf with
  | nil => simp [processWire] at h
  | cons hd tl ih =>
    obtain ⟨name, wdef⟩ := hd
    simp only [processWire] at h
    split at h
    · split at h
      · simp at h
        simp [h.2.2]
      · have := ih _ _ _ _ h
        simpa [storeWiredMethodMeta] using this
    · split at h
      · simp at h
        simp [h.2.2]
      · have := ih _ _ _ _ h
        simpa [storeWiredFieldMeta] using this

/-! ### Preservation lemmas: a loop only touches the keys it iterates -/

theorem processPublicProps_ok_preserve (dev : Bool) (ctor : Ctor)
    (entries : List (String × PropCompilerDef)) (proto p' : Prototype)
    (acc af : List String) (n : String) :
    n ∉ entries.map (fun e => e.1) →
    processPublicProps dev ctor entries proto acc = Except.ok (p', af) →
    protoLookup p' n = protoLookup proto n := by
  induction entries generalizing proto acc with
  | nil =>
    intro _ h
    simp [processPublicProps] at h
    simp [h.1]
  | cons hd tl ih =>
    intro hn h
    obtain ⟨fieldName, propConfig⟩ := hd
    simp only [List.map_cons, List.mem_cons, not_or] at hn
    obtain ⟨hn1, hn2⟩ := hn
    simp only [processPublicProps] at h
    split at h
    · split at h
      · exact absurd h (by simp)
      · have := ih _ _ hn2 h
        rw [this, protoLookup_protoDefine_ne _ _ _ _ hn1]
    · split at h
      · exact absurd h (by simp)
      · have := ih _ _ hn2 h
        rw [this, protoLookup_protoDefine_ne _ _ _ _ hn1]

theorem processTrack_ok_preserve (dev : Bool) (names : List String)
    (proto p' : Prototype) (n : String) :
    n ∉ names →
    processTrack dev names proto = Except.ok p' →
    protoLookup p' n = protoLookup proto n := by
  induction names generalizing proto with
  | nil =>
    intro _ h
    simp [processTrack] at h
    simp [h]
  | cons hd tl ih =>
    intro hn h
    simp only [List.mem_cons, not_or] at hn
    obtain ⟨hn1, hn2⟩ := hn
    simp only [processTrack] at h
    split at h
    · exact absurd h (by simp)
    · have := ih _ hn2 h
      rw [this, protoLookup_protoDefine_ne _ _ _ _ hn1]

theorem processWire_ok_preserve (dev : Bool) (ctor : Ctor)
    (entries : List (String × WireCompilerDef)) (proto p' : Prototype)
    (st st' : EngineState) (wm wf wm' wf' : List String) (n : String) :
    n ∉ entries.map (fun e => e.1) →
    processWire dev ctor entries proto st wm wf =
      Except.ok (p', st', wm', wf') →
    protoLookup p' n = protoLookup proto n := by
  induction entries generalizing proto st wm wf with
  | nil =>
    intro _ h
    simp [processWire] at h
    simp [h.1]
  | cons hd tl ih =>
    intro hn h
    obtain ⟨k, c⟩ := hd
    simp only [List.map_cons, List.mem_cons, not_or] at hn
    obtain ⟨hn1, hn2⟩ := hn
    simp only [processWire] at h
    split at h
    · split at h
      · exact absurd h (by simp)
      · exact ih _ _ _ _ hn2 h
    · split at h
      · exact absurd h (by simp)
      · have := ih _ _ _ _ hn2 h
        rw [this, protoLookup_protoDefine_ne _ _ _ _ hn1]

/-- Per-entry behaviour of the wire loop on a field-form entry (`method` not
strictly equal to the number `1`): the wire-field descriptor is installed,
the name lands in `wiredFields`, and exactly one wired-field call with the
entry's arguments is appended to the log. -/
theorem processWire_ok_field (dev : Bool) (ctor : Ctor)
    (entries : List (String × WireCompilerDef)) (proto p' : Prototype)
    (st st' : EngineState) (wm wf wm' wf' : List String)
    (name : String) (wdef : WireCompilerDef)
    (hfield : ¬(wdef.method = some (JSValue.num 1))) :
    (entries.map (fun e => e.1)).Nodup →
    (name, wdef) ∈ entries →
    processWire dev ctor entries proto st wm wf =
      Except.ok (p', st', wm', wf') →
    protoLookup p' name = some (internalWireFieldDecorator name) ∧
    name ∈ wf' ∧
    List.count (wiredFieldCallOf ctor (name, wdef)) st'.wiredFieldCalls =
      List.count (wiredFieldCallOf ctor (name, wdef)) st.wiredFieldCalls + 1 := by
  induction entries generalizing proto st wm wf with
  | nil =>
    intro _ hmem _
    exact absurd hmem (by simp)
  | cons hd tl ih =>
    intro hnd hmem h
    obtain ⟨k, c⟩ := hd
    simp only [List.map_cons, List.nodup_cons] at hnd
    obtain ⟨hk, hnd'⟩ := hnd
    rcases List.mem_cons.mp hmem with hhd | htl
    · injection hhd with hk1 hk2
      subst hk1
      subst hk2
      simp only [processWire, if_neg hfield] at h
      split at h
      · exact absurd h (by simp)
      · obtain ⟨_, hwf, hcalls, _⟩ := processWire_ok_eq _ _ _ _ _ _ _ _ _ _ _ h
        refine ⟨?_, ?_, ?_⟩
        · have := processWire_ok_preserve _ _ _ _ _ _ _ _ _ _ _ _ hk h
          rw [this, protoLookup_protoDefine_self]
        · rw [hwf]
          simp
        · rw [hcalls]
          simp only [storeWiredFieldMeta]
          have hzero :
              List.count (wiredFieldCallOf ctor (name, wdef))
                ((tl.filter (fun e => !isWireMethodEntry e)).map
                  (wiredFieldCallOf ctor)) = 0 := by
            rw [List.count_eq_zero]
            intro hmem2
            obtain ⟨e, hin, hEq⟩ := List.mem_map.mp hmem2
            have he : e.1 = name := congrArg WiredFieldCall.name hEq
            exact hk (he ▸ List.mem_map_of_mem (fun e => e.1)
              (List.mem_of_mem_filter hin))
          rw [List.count_append, List.count_append, hzero]
          simp [wiredFieldCallOf]
    · have hkname : k ≠ name := by
        intro hEq
        exact hk (hEq ▸ List.mem_map_of_mem (fun e => e.1) htl)
      simp only [processWire] at h
      split at h
      · split at h
        · exact absurd h (by simp)
        · have := ih _ _ _ _ hnd' htl h
          simpa [storeWiredMethodMeta] using this
      · split at h
        · exact absurd h (by simp)
        · have := ih _ _ _ _ hnd' htl h
          rcases this with ⟨h1, h2, h3⟩
          refine ⟨h1, h2, ?_⟩
          have hne : WiredFieldCall.mk ctor k c.adapter c.config ≠
              wiredFieldCallOf ctor (name, wdef) := by
            intro hEq
            exact hkname (by
              simpa [wiredFieldCallOf] using congrArg WiredFieldCall.name hEq)
          have hcount0 : List.count (wiredFieldCallOf ctor (name, wdef))
              [WiredFieldCall.mk ctor k c.adapter c.config] = 0 := by
            rw [List.count_eq_zero]
            simp only [List.mem_singleton]
            exact fun hEq => hne hEq.symm
          simpa [storeWiredFieldMeta, List.count_append, hcount0] using h3

theorem protoGetValue_congr (p1 p2 : Prototype) (n : String)
    (h : protoLookup p1 n = protoLookup p2 n) :
    protoGetValue p1 n = protoGetValue p2 n := by
  simp [protoGetValue, h]

theorem processWire_ok_methodCalls_mono (dev : Bool) (ctor : Ctor)
    (entries : List (String × WireCompilerDef)) (proto p' : Prototype)
    (st st' : EngineState) (wm wf wm' wf' : List String) (x : WiredMethodCall) :
    processWire dev ctor entries proto st wm wf =
      Except.ok (p', st', wm', wf') →
    x ∈ st.wiredMethodCalls → x ∈ st'.wiredMethodCalls := by
  induction entries generalizing proto st wm wf with
  | nil =>
    intro h hx
    simp [processWire] at h
    rw [← h.2.1]
    exact hx
  | cons hd tl ih =>
    intro h hx
    obtain ⟨k, c⟩ := hd
    simp only [processWire] at h
    split at h
    · split at h
      · exact absurd h (by simp)
      · exact ih _ _ _ _ h (by simp [storeWiredMethodMeta]; exact Or.inl hx)
    · split at h
      · exact absurd h (by simp)
      · exact ih _ _ _ _ h (by simpa [storeWiredFieldMeta] using hx)

/-- Per-entry behaviour of the wire loop on a method-form entry (`method`
strictly equal to the number `1`): the prototype binding for the name is left
untouched, a wired-method call carrying `proto[name]` is recorded, and the
name lands in `wiredMethods`. -/
theorem processWire_ok_method (dev : Bool) (ctor : Ctor)
    (entries : List (String × WireCompilerDef)) (proto p' : Prototype)
    (st st' : EngineState) (wm wf wm' wf' : List String)
    (name : String) (wdef : WireCompilerDef)
    (hm : wdef.method = some (JSValue.num 1)) :
    (entries.map (fun e => e.1)).Nodup →
    (name, wdef) ∈ entries →
    processWire dev ctor entries proto st wm wf =
      Except.ok (p', st', wm', wf') →
    protoLookup p' name = protoLookup proto name ∧
    WiredMethodCall.mk ctor name wdef.adapter (protoGetValue proto name)
      wdef.config ∈ st'.wiredMethodCalls ∧
    name ∈ wm' := by
  induction entries generalizing proto st wm wf with
  | nil =>
    intro _ hmem _
    exact absurd hmem (by simp)
  | cons hd tl ih =>
    intro hnd hmem h
    obtain ⟨k, c⟩ := hd
    simp only [List.map_cons, List.nodup_cons] at hnd
    obtain ⟨hk, hnd'⟩ := hnd
    rcases List.mem_cons.mp hmem with hhd | htl
    · injection hhd with hk1 hk2
      subst hk1
      subst hk2
      simp only [processWire, if_pos hm] at h
      split at h
      · exact absurd h (by simp)
      · obtain ⟨hwm, _, _, _⟩ := processWire_ok_eq _ _ _ _ _ _ _ _ _ _ _ h
        refine ⟨processWire_ok_preserve _ _ _ _ _ _ _ _ _ _ _ _ hk h, ?_, ?_⟩
        · refine processWire_ok_methodCalls_mono _ _ _ _ _ _ _ _ _ _ _ _ h ?_
          simp [storeWiredMethodMeta]
        · rw [hwm]
          simp
    · have hkname : k ≠ name := by
        intro hEq
        exact hk (hEq ▸ List.mem_map_of_mem (fun e => e.1) htl)
      simp only [processWire] at h
      split at h
      · split at h
        · exact absurd h (by simp)
        · exact ih _ _ _ _ hnd' htl h
      · split at h
        · exact absurd h (by simp)
        · have := ih _ _ _ _ hnd' htl h
          rcases this with ⟨h1, h2, h3⟩
          have hpres : protoLookup (protoDefine proto k
              (internalWireFieldDecorator k)) name = protoLookup proto name :=
            protoLookup_protoDefine_ne _ _ _ _ hkname.symm
          refine ⟨h1.trans hpres, ?_, h3⟩
          rw [protoGetValue_congr _ _ _ hpres] at h2
          exact h2

/-! ### Validation-failure conditions and error propagation -/

theorem validateAccessorDecoratedWithApi_err (ctor : Ctor) (proto : Prototype)
    (name : String) (h : accessorInvalidDesc (protoLookup proto name)) :
    ∃ e, validateAccessorDecoratedWithApi true ctor proto name =
      Except.error e := by
  cases hl : protoLookup proto name with
  | none =>
    refine ⟨"Compiler Error: Invalid @api get " ++ name ++
      " accessor declaration.", ?_⟩
    simp [validateAccessorDecoratedWithApi, hl]
  | some d =>
    rw [hl] at h
    obtain ⟨hs, hg⟩ := h
    refine ⟨"Compiler Error: Missing getter for property " ++ name ++
      " decorated with @api in " ++ toString ctor ++
      ". You cannot have a setter without the corresponding getter.", ?_⟩
    simp [validateAccessorDecoratedWithApi, hl, hs, hg]

theorem validateMethodDecoratedWithApi_err (proto : Prototype) (name : String)
    (h : methodInvalidDesc (protoLookup proto name)) :
    validateMethodDecoratedWithApi true proto name =
      Except.error ("Compiler Error: Invalid @api " ++ name ++
        " method declaration.") := by
  cases hl : protoLookup proto name with
  | none => simp [validateMethodDecoratedWithApi, hl]
  | some d =>
    rw [hl] at h
    rcases h with hv | hw
    · simp [validateMethodDecoratedWithApi, hl, hv]
    · simp [validateMethodDecoratedWithApi, hl, hw]

theorem validateMethodDecoratedWithWire_err (proto : Prototype) (name : String)
    (h : methodInvalidDesc (protoLookup proto name)) :
    validateMethodDecoratedWithWire true proto name =
      Except.error ("Compiler Error: Invalid @wire(...) " ++ name ++
        " method declaration.") := by
  cases hl : protoLookup proto name with
  | none => simp [validateMethodDecoratedWithWire, hl]
  | some d =>
    rw [hl] at h
    rcases h with hv | hw
    · simp [validateMethodDecoratedWithWire, hl, hv]
    · simp [validateMethodDecoratedWithWire, hl, hw]

/-- If some public prop of accessor kind (`config > 0`) sits on a name whose
own descriptor is missing or setter-without-getter, the publicProps loop
fails (in dev mode). -/
theorem processPublicProps_err (ctor : Ctor)
    (entries : List (String × PropCompilerDef)) (proto : Prototype)
    (acc : List String) (name : String) (pc : PropCompilerDef)
    (hconf : 0 < pc.config) :
    (entries.map (fun e => e.1)).Nodup →
    (name, pc) ∈ entries →
    accessorInvalidDesc (protoLookup proto name) →
    ∃ e p2, processPublicProps true ctor entries proto acc =
      Except.error (e, p2) := by
  induction entries generalizing proto acc with
  | nil =>
    intro _ hmem _
    exact absurd hmem (by simp)
  | cons hd tl ih =>
    intro hnd hmem hinv
    obtain ⟨k, c⟩ := hd
    simp only [List.map_cons, List.nodup_cons] at hnd
    obtain ⟨hk, hnd'⟩ := hnd
    rcases List.mem_cons.mp hmem with hhd | htl
    · injection hhd with hk1 hk2
      subst hk1
      subst hk2
      obtain ⟨e, he⟩ := validateAccessorDecoratedWithApi_err ctor proto name hinv
      exact ⟨e, proto, by simp [processPublicProps, if_pos hconf, he]⟩
    · have hkname : k ≠ name := by
        intro hEq
        exact hk (hEq ▸ List.mem_map_of_mem (fun e => e.1) htl)
      by_cases hc : 0 < c.config
      · cases hv : validateAccessorDecoratedWithApi true ctor proto k with
        | error e =>
          exact ⟨e, proto, by simp [processPublicProps, if_pos hc, hv]⟩
        | ok u =>
          cases u
          have hinv' : accessorInvalidDesc (protoLookup
              (protoDefine proto k (createPublicAccessorDescriptor k
                (protoLookup proto k))) name) := by
            rw [protoLookup_protoDefine_ne _ _ _ _ hkname.symm]
            exact hinv
          obtain ⟨e, p2, hrec⟩ := ih _ _ hnd' htl hinv'
          refine ⟨e, p2, ?_⟩
          simp only [processPublicProps, if_pos hc, hv]
          exact hrec
      · cases hv : validateFieldDecoratedWithApi true proto k with
        | error e =>
          exact ⟨e, proto, by simp [processPublicProps, if_neg hc, hv]⟩
        | ok u =>
          cases u
          have hinv' : accessorInvalidDesc (protoLookup
              (protoDefine proto k (createPublicPropertyDescriptor k))
                name) := by
            rw [protoLookup_protoDefine_ne _ _ _ _ hkname.symm]
            exact hinv
          obtain ⟨e, p2, hrec⟩ := ih _ _ hnd' htl hinv'
          refine ⟨e, p2, ?_⟩
          simp only [processPublicProps, if_neg hc, hv]
          exact hrec

/-- If some public method name has a missing, non-function, or non-writable
descriptor, the publicMethods loop fails (in dev mode). -/
theorem processPublicMethods_err (proto : Prototype) (names : List String)
    (acc : List String) (name : String) :
    name ∈ names →
    methodInvalidDesc (protoLookup proto name) →
    ∃ e, processPublicMethods true proto names acc = Except.error e := by
  induction names generalizing acc with
  | nil =>
    intro hmem _
    exact absurd hmem (by simp)
  | cons hd tl ih =>
    intro hmem hinv
    rcases List.mem_cons.mp hmem with hhd | htl
    · subst hhd
      have he := validateMethodDecoratedWithApi_err proto name hinv
      exact ⟨"Compiler Error: Invalid @api " ++ name ++ " method declaration.",
        by simp only [processPublicMethods, he]⟩
    · cases hv : validateMethodDecoratedWithApi true proto hd with
      | error e => exact ⟨e, by simp [processPublicMethods, hv]⟩
      | ok u =>
        cases u
        obtain ⟨e, hrec⟩ := ih _ htl hinv
        refine ⟨e, ?_⟩
        simp only [processPublicMethods, hv]
        exact hrec

/-- If some wire entry with `method === 1` sits on a name with a missing,
non-function, or non-writable descriptor, the wire loop fails (dev mode). -/
theorem processWire_err_method (ctor : Ctor)
    (entries : List (String × WireCompilerDef)) (proto : Prototype)
    (st : EngineState) (wm wf : List String) (name : String)
    (wdef : WireCompilerDef) (hm : wdef.method = some (JSValue.num 1)) :
    (entries.map (fun e => e.1)).Nodup →
    (name, wdef) ∈ entries →
    methodInvalidDesc (protoLookup proto name) →
    ∃ e p2 s2, processWire true ctor entries proto st wm wf =
      Except.error (e, p2, s2) := by
  induction entries generalizing proto st wm wf with
  | nil =>
    intro _ hmem _
    exact absurd hmem (by simp)
  | cons hd tl ih =>
    intro hnd hmem hinv
    obtain ⟨k, c⟩ := hd
    simp only [List.map_cons, List.nodup_cons] at hnd
    obtain ⟨hk, hnd'⟩ := hnd
    rcases List.mem_cons.mp hmem with hhd | htl
    · injection hhd with hk1 hk2
      subst hk1
      subst hk2
      have he := validateMethodDecoratedWithWire_err proto name hinv
      exact ⟨"Compiler Error: Invalid @wire(...) " ++ name ++
        " method declaration.", proto, st,
        by simp only [processWire, if_pos hm, he]⟩
    · have hkname : k ≠ name := by
        intro hEq
        exact hk (hEq ▸ List.mem_map_of_mem (fun e => e.1) htl)
      by_cases hc : c.method = some (JSValue.num 1)
      · cases hv : validateMethodDecoratedWithWire true proto k with
        | error e => exact ⟨e, proto, st, by simp [processWire, if_pos hc, hv]⟩
        | ok u =>
          cases u
          obtain ⟨e, p2, s2, hrec⟩ := ih _ _ _ _ hnd' htl hinv
          refine ⟨e, p2, s2, ?_⟩
          simp only [processWire, if_pos hc, hv]
          exact hrec
      · cases hv : validateFieldDecoratedWithWire true proto k with
        | error e => exact ⟨e, proto, st, by simp [processWire, if_neg hc, hv]⟩
        | ok u =>
          cases u
          have hinv' : methodInvalidDesc (protoLookup
              (protoDefine proto k (internalWireFieldDecorator k)) name) := by
            rw [protoLookup_protoDefine_ne _ _ _ _ hkname.symm]
            exact hinv
          obtain ⟨e, p2, s2, hrec⟩ := ih _ _ _ _ hnd' htl hinv'
          refine ⟨e, p2, s2, ?_⟩
          simp only [processWire, if_neg hc, hv]
          exact hrec

/-! ### Top-level registration lemmas -/

/-- A successful registration stores exactly `resolveMeta meta` for the
class: `registerDecorators` resolves the per-category lists purely from the
compiler metadata and writes them with `setDecoratorsMeta`. -/
theorem registerDecorators_ok_getMeta (dev : Bool) (ctor : Ctor)
    (proto : Prototype) (meta : RegisterDecoratorMeta) (st : EngineState)
    (p' : Prototype) (st' : EngineState)
    (h : registerDecorators dev ctor proto meta st = Except.ok (p', st')) :
    registryLookup st'.registry ctor = some (resolveMeta meta) ∧
    getDecoratorsMeta ctor st' = resolveMeta meta := by
  simp only [registerDecorators] at h
  split at h
  · exact absurd h (by simp)
  · rename_i res1 proto1 apiFields hpp
    split at h
    · exact absurd h (by simp)
    · rename_i res2 apiMethods hpm
      split at h
      · exact absurd h (by simp)
      · rename_i res3 proto2 st2 wiredMethods wiredFields hw
        split at h
        · exact absurd h (by simp)
        · rename_i res4 proto3 ht
          split at h
          · exact absurd h (by simp)
          · simp only [Except.ok.injEq, Prod.mk.injEq] at h
            obtain ⟨hp3, hst⟩ := h
            have haf := processPublicProps_ok_apiFields _ _ _ _ _ _ _ hpp
            have ham := processPublicMethods_ok _ _ _ _ _ hpm
            have hweq := processWire_ok_eq _ _ _ _ _ _ _ _ _ _ _ hw
            obtain ⟨hwm, hwf, _, hreg⟩ := hweq
            have hbuilt :
                ({ apiMethods := apiMethods, apiFields := apiFields,
                   wiredMethods := wiredMethods, wiredFields := wiredFields,
                   fields := meta.fields } : DecoratorMeta) =
                resolveMeta meta := by
              simp [resolveMeta, haf, ham, hwm, hwf]
            have hlook : registryLookup st'.registry ctor =
                some (resolveMeta meta) := by
              rw [← hst]
              simp only [setDecoratorsMeta]
              rw [hbuilt, registryLookup_registrySet_self]
            exact ⟨hlook, by simp [getDecoratorsMeta, hlook]⟩

/-- A failed registration leaves the registry untouched: the registry write
is the final step, so any thrown validation error happens before it. -/
theorem registerDecorators_err_registry (dev : Bool) (ctor : Ctor)
    (proto : Prototype) (meta : RegisterDecoratorMeta) (st : EngineState)
    (e : String) (p2 : Prototype) (s2 : EngineState)
    (h : registerDecorators dev ctor proto meta st = Except.error (e, p2, s2)) :
    s2.registry = st.registry := by
  simp only [registerDecorators] at h
  split at h
  · rename_i res1 e1 proto1 hpp
    simp only [Except.error.injEq, Prod.mk.injEq] at h
    rw [← h.2.2]
  · rename_i res1 proto1 apiFields hpp
    split at h
    · simp only [Except.error.injEq, Prod.mk.injEq] at h
      rw [← h.2.2]
    · rename_i res2 apiMethods hpm
      split at h
      · rename_i res3 e3 proto3 st3 hw
        simp only [Except.error.injEq, Prod.mk.injEq] at h
        rw [← h.2.2]
        exact processWire_error_registry _ _ _ _ _ _ _ _ _ _ hw
      · rename_i res3 proto2 st2 wiredMethods wiredFields hw
        have hreg :=
          (processWire_ok_eq _ _ _ _ _ _ _ _ _ _ _ hw).2.2.2
        split at h
        · simp only [Except.error.injEq, Prod.mk.injEq] at h
          rw [← h.2.2]
          exact hreg
        · split at h
          · simp only [Except.error.injEq, Prod.mk.injEq] at h
            rw [← h.2.2]
            exact hreg
          · exact absurd h (by simp)

/-- A successful registration decomposes into the five loops run in order,
with the resolved lists written by `setDecoratorsMeta` as the final step. -/
theorem registerDecorators_ok_decomp (dev : Bool) (ctor : Ctor)
    (proto : Prototype) (meta : RegisterDecoratorMeta) (st : EngineState)
    (p' : Prototype) (st' : EngineState)
    (h : registerDecorators dev ctor proto meta st = Except.ok (p', st')) :
    ∃ proto1 apiFields apiMethods proto2 st2 wiredMethods wiredFields,
    processPublicProps dev ctor (meta.publicProps.getD []) proto [] =
      Except.ok (proto1, apiFields) ∧
    processPublicMethods dev proto1 (meta.publicMethods.getD []) [] =
      Except.ok apiMethods ∧
    processWire dev ctor (meta.wire.getD []) proto1 st [] [] =
      Except.ok (proto2, st2, wiredMethods, wiredFields) ∧
    processTrack dev (meta.track.getD []) proto2 = Except.ok p' ∧
    processFields dev p' (meta.fields.getD []) = Except.ok () ∧
    st' = setDecoratorsMeta ctor
      { apiMethods := apiMethods, apiFields := apiFields,
        wiredMethods := wiredMethods, wiredFields := wiredFields,
        fields := meta.fields } st2 := by
  simp only [registerDecorators] at h
  split at h
  · exact absurd h (by simp)
  · rename_i proto1 apiFields hpp
    split at h
    · exact absurd h (by simp)
    · rename_i apiMethods hpm
      split at h
      · exact absurd h (by simp)
      · rename_i proto2 st2 wiredMethods wiredFields hw
        split at h
        · exact absurd h (by simp)
        · rename_i proto3 ht
          split at h
          · exact absurd h (by simp)
          · rename_i hf
            simp only [Except.ok.injEq, Prod.mk.injEq] at h
            obtain ⟨hp3, hst⟩ := h
            subst hp3
            exact ⟨proto1, apiFields, apiMethods, proto2, st2, wiredMethods,
              wiredFields, hpp, hpm, hw, ht, hf, hst.symm⟩

/-! ### The claims -/

/-- Claim C1: registering (in non-production mode) a class with a Get or
GetSet accessor-kind public prop whose prototype has no own descriptor under
that name fails before the registry is mutated: the error state carries the
unchanged registry, and `getDecoratorsMeta` for a previously unregistered
class still returns the shared default value. -/
theorem claim_C1 (ctor : Ctor) (proto : Prototype)
    (meta : RegisterDecoratorMeta) (st : EngineState) (name : String)
    (pc : PropCompilerDef) (pps : List (String × PropCompilerDef))
    (hpp : meta.publicProps = some pps)
    (hmem : (name, pc) ∈ pps)
    (hkind : pc.config = PropTypeGet ∨ pc.config = PropTypeGetSet)
    (hnd : (pps.map (fun e => e.1)).Nodup)
    (hdesc : protoLookup proto name = none)
    (hreg : registryLookup st.registry ctor = none) :
    ∃ e p2 s2,
      registerDecorators true ctor proto meta st = Except.error (e, p2, s2) ∧
      s2.registry = st.registry ∧
      getDecoratorsMeta ctor s2 = defaultMeta := by
  have hconf : 0 < pc.config := by
    rcases hkind with h | h <;> simp [h, PropTypeGet, PropTypeGetSet]
  have hinv : accessorInvalidDesc (protoLookup proto name) := by
    rw [hdesc]
    trivial
  obtain ⟨e, p2, hperr⟩ :=
    processPublicProps_err ctor pps proto [] name pc hconf hnd hmem hinv
  refine ⟨e, p2, st, ?_, rfl, ?_⟩
  · simp only [registerDecorators, hpp, Option.getD_some, hperr]
  · simp [getDecoratorsMeta, hreg]

theorem claim_C1_witness :
    ∃ e p2 s2,
      registerDecorators true 0 []
        { publicProps := some [("p", { config := 2 })] } emptyEngineState =
        Except.error (e, p2, s2) ∧
      s2.registry = emptyEngineState.registry ∧
      getDecoratorsMeta 0 s2 = defaultMeta :=
  claim_C1 0 [] { publicProps := some [("p", { config := 2 })] }
    emptyEngineState "p" { config := 2 } [("p", { config := 2 })]
    rfl (by decide) (Or.inl (by decide)) (by decide) (by decide) (by decide)

/-- Claim C5: in non-production mode, for an accessor-style public prop
(Set, Get, or GetSet kind) validation requires an own descriptor to exist,
and a function-valued setter without a function-valued getter is rejected:
in either situation the registration fails with a diagnostic. -/
theorem claim_C5 (ctor : Ctor) (proto : Prototype)
    (meta : RegisterDecoratorMeta) (st : EngineState) (name : String)
    (pc : PropCompilerDef) (pps : List (String × PropCompilerDef))
    (hpp : meta.publicProps = some pps)
    (hmem : (name, pc) ∈ pps)
    (hkind : pc.config = PropTypeSet ∨ pc.config = PropTypeGet ∨
      pc.config = PropTypeGetSet)
    (hnd : (pps.map (fun e => e.1)).Nodup)
    (hbad : protoLookup proto name = none ∨
      ∃ d, protoLookup proto name = some d ∧
        isFunction d.set = true ∧ isFunction d.get = false) :
    ∃ e p2 s2,
      registerDecorators true ctor proto meta st = Except.error (e, p2, s2) := by
  have hconf : 0 < pc.config := by
    rcases hkind with h | h | h <;>
      simp [h, PropTypeSet, PropTypeGet, PropTypeGetSet]
  have hinv : accessorInvalidDesc (protoLookup proto name) := by
    rcases hbad with h | ⟨d, hd, hs, hg⟩
    · rw [h]
      trivial
    · rw [hd]
      exact ⟨hs, hg⟩
  obtain ⟨e, p2, hperr⟩ :=
    processPublicProps_err ctor pps proto [] name pc hconf hnd hmem hinv
  exact ⟨e, p2, st, by simp only [registerDecorators, hpp, Option.getD_some,
    hperr]⟩

theorem claim_C5_witness :
    ∃ e p2 s2,
      registerDecorators true 0
        [("a", { set := some (JSValue.func (FnTag.user 1)) })]
        { publicProps := some [("a", { config := 3 })] } emptyEngineState =
        Except.error (e, p2, s2) :=
  claim_C5 0 [("a", { set := some (JSValue.func (FnTag.user 1)) })]
    { publicProps := some [("a", { config := 3 })] } emptyEngineState
    "a" { config := 3 } [("a", { config := 3 })]
    rfl (by decide) (Or.inr (Or.inr (by decide))) (by decide)
    (Or.inr ⟨{ set := some (JSValue.func (FnTag.user 1)) },
      by decide, by decide, by decide⟩)

/-- Claim C6: in non-production mode, a public-method name (or a wire entry
with the method flag set) whose own descriptor is missing, whose `value` is
not a function, or whose `writable` attribute is explicitly `false` makes
registration fail. -/
theorem claim_C6 (ctor : Ctor) (proto : Prototype)
    (meta : RegisterDecoratorMeta) (st : EngineState) (name : String)
    (hnp : name ∉ (meta.publicProps.getD []).map (fun e => e.1))
    (hbad : protoLookup proto name = none ∨
      ∃ d, protoLookup proto name = some d ∧
        (isFunction d.value = false ∨ d.writable = some false))
    (hsrc : name ∈ meta.publicMethods.getD [] ∨
      ∃ wdef, (name, wdef) ∈ meta.wire.getD [] ∧
        wdef.method = some (JSValue.num 1) ∧
        ((meta.wire.getD []).map (fun e => e.1)).Nodup) :
    ∃ e p2 s2,
      registerDecorators true ctor proto meta st = Except.error (e, p2, s2) := by
  have hinv : methodInvalidDesc (protoLookup proto name) := by
    rcases hbad with h | ⟨d, hd, hc⟩
    · rw [h]
      trivial
    · rw [hd]
      rcases hc with hv | hw
      · exact Or.inl hv
      · exact Or.inr (by simp [isFalse, hw])
  cases hppres : processPublicProps true ctor (meta.publicProps.getD [])
      proto [] with
  | error ep =>
    obtain ⟨e, p2⟩ := ep
    exact ⟨e, p2, st, by simp only [registerDecorators, hppres]⟩
  | ok res =>
    obtain ⟨proto1, af⟩ := res
    have hpres : protoLookup proto1 name = protoLookup proto name :=
      processPublicProps_ok_preserve _ _ _ _ _ _ _ _ hnp hppres
    have hinv1 : methodInvalidDesc (protoLookup proto1 name) := by
      rw [hpres]
      exact hinv
    rcases hsrc with hm | ⟨wdef, hwmem, hw1, hwnd⟩
    · obtain ⟨e, hpmErr⟩ := processPublicMethods_err proto1
        (meta.publicMethods.getD []) [] name hm hinv1
      exact ⟨e, proto1, st,
        by simp only [registerDecorators, hppres, hpmErr]⟩
    · cases hpm : processPublicMethods true proto1
          (meta.publicMethods.getD []) [] with
      | error e =>
        exact ⟨e, proto1, st,
          by simp only [registerDecorators, hppres, hpm]⟩
      | ok ams =>
        obtain ⟨e, p2, s2, hwErr⟩ := processWire_err_method ctor
          (meta.wire.getD []) proto1 st [] [] name wdef hw1 hwnd hwmem hinv1
        exact ⟨e, p2, s2,
          by simp only [registerDecorators, hppres, hpm, hwErr]⟩

theorem claim_C6_witness :
    (∃ e p2 s2,
      registerDecorators true 0
        [("foo", { value := some (JSValue.func (FnTag.user 0)),
                   writable := some false })]
        { publicMethods := some ["foo"] } emptyEngineState =
        Except.error (e, p2, s2)) ∧
    registerDecorators true 0
      [("foo", { value := some (JSValue.func (FnTag.user 0)),
                 writable := some false })]
      { publicMethods := some ["foo"] } emptyEngineState =
      Except.error ("Compiler Error: Invalid @api foo method declaration.",
        [("foo", { value := some (JSValue.func (FnTag.user 0)),
                   writable := some false })], emptyEngineState) :=
  ⟨claim_C6 0
    [("foo", { value := some (JSValue.func (FnTag.user 0)),
               writable := some false })]
    { publicMethods := some ["foo"] } emptyEngineState "foo"
    (by decide)
    (Or.inr ⟨{ value := some (JSValue.func (FnTag.user 0)),
               writable := some false }, by decide, Or.inr (by decide)⟩)
    (Or.inl (by decide)),
   rfl⟩

/-- Claim C4: for every class that was never passed to `registerDecorators`
(no registry entry), `getDecoratorsMeta` returns the shared default value
`{apiMethods: [], apiFields: [], wiredMethods: [], wiredFields: []}` with
empty lists and no `fields` entry. -/
theorem claim_C4 (ctor : Ctor) (st : EngineState)
    (h : registryLookup st.registry ctor = none) :
    getDecoratorsMeta ctor st = defaultMeta ∧
    defaultMeta = { apiMethods := [], apiFields := [], wiredMethods := [],
                    wiredFields := [], fields := none } := by
  constructor
  · simp [getDecoratorsMeta, h]
  · rfl

theorem claim_C4_witness :
    registryLookup emptyEngineState.registry 0 = none ∧
    getDecoratorsMeta 0 emptyEngineState = defaultMeta :=
  ⟨by decide, (claim_C4 0 emptyEngineState (by decide)).1⟩

/-- Claim C10: `registerDecorators` always writes a registry entry, even when
all five metadata categories are absent: after registering a class with the
empty meta object, the registry holds an entry for the class (so
`getDecoratorsMeta` takes the registered branch, not the shared-default
branch) whose value has four empty lists and an absent `fields`. -/
theorem claim_C10 (dev : Bool) (ctor : Ctor) (proto : Prototype)
    (st : EngineState) :
    registerDecorators dev ctor proto
      { publicMethods := none, publicProps := none, track := none,
        wire := none, fields := none } st =
      Except.ok (proto, setDecoratorsMeta ctor
        { apiMethods := [], apiFields := [], wiredMethods := [],
          wiredFields := [], fields := none } st) ∧
    registryLookup (setDecoratorsMeta ctor
        { apiMethods := [], apiFields := [], wiredMethods := [],
          wiredFields := [], fields := none } st).registry ctor =
      some { apiMethods := [], apiFields := [], wiredMethods := [],
             wiredFields := [], fields := none } ∧
    getDecoratorsMeta ctor (setDecoratorsMeta ctor
        { apiMethods := [], apiFields := [], wiredMethods := [],
          wiredFields := [], fields := none } st) =
      { apiMethods := [], apiFields := [], wiredMethods := [],
        wiredFields := [], fields := none } := by
  have hlook : registryLookup (setDecoratorsMeta ctor
      { apiMethods := [], apiFields := [], wiredMethods := [],
        wiredFields := [], fields := none } st).registry ctor =
      some { apiMethods := [], apiFields := [], wiredMethods := [],
             wiredFields := [], fields := none } := by
    simp only [setDecoratorsMeta]
    exact registryLookup_registrySet_self _ _ _
  exact ⟨rfl, hlook, by simp [getDecoratorsMeta, hlook]⟩

/-- Claim C3: for every class registered with a non-empty `publicProps`
mapping (distinct keys, as JS object keys are), after a successful
registration the resolved `apiFields` list is exactly the list of declared
public-prop names in declaration order, containing each name exactly once. -/
theorem claim_C3 (dev : Bool) (ctor : Ctor) (proto p' : Prototype)
    (meta : RegisterDecoratorMeta) (st st' : EngineState)
    (pps : List (String × PropCompilerDef))
    (hpp : meta.publicProps = some pps) (hne : pps ≠ [])
    (hnd : (pps.map (fun e => e.1)).Nodup)
    (hok : registerDecorators dev ctor proto meta st = Except.ok (p', st')) :
    (getDecoratorsMeta ctor st').apiFields = pps.map (fun e => e.1) ∧
    ∀ n ∈ pps.map (fun e => e.1),
      ((getDecoratorsMeta ctor st').apiFields).count n = 1 := by
  obtain ⟨_, hmeta⟩ := registerDecorators_ok_getMeta _ _ _ _ _ _ _ hok
  have hfields : (getDecoratorsMeta ctor st').apiFields =
      pps.map (fun e => e.1) := by
    rw [hmeta]
    simp [resolveMeta, hpp]
  refine ⟨hfields, ?_⟩
  intro n hn
  rw [hfields]
  exact List.count_eq_one_of_mem hnd hn

/-- Claim C7: for every class registered with `track = {z: 1}` where `z`
belongs to no other category, after a successful registration `z` is absent
from all four resolved metadata lists. -/
theorem claim_C7 (dev : Bool) (ctor : Ctor) (proto p' : Prototype)
    (meta : RegisterDecoratorMeta) (st st' : EngineState) (z : String)
    (htrack : z ∈ meta.track.getD [])
    (hzp : z ∉ (meta.publicProps.getD []).map (fun e => e.1))
    (hzm : z ∉ meta.publicMethods.getD [])
    (hzw : z ∉ (meta.wire.getD []).map (fun e => e.1))
    (hok : registerDecorators dev ctor proto meta st = Except.ok (p', st')) :
    z ∉ (getDecoratorsMeta ctor st').apiFields ∧
    z ∉ (getDecoratorsMeta ctor st').apiMethods ∧
    z ∉ (getDecoratorsMeta ctor st').wiredFields ∧
    z ∉ (getDecoratorsMeta ctor st').wiredMethods := by
  obtain ⟨_, hmeta⟩ := registerDecorators_ok_getMeta _ _ _ _ _ _ _ hok
  rw [hmeta]
  refine ⟨by simpa [resolveMeta] using hzp, by simpa [resolveMeta] using hzm,
    ?_, ?_⟩
  · simp only [resolveMeta]
    intro hc
    obtain ⟨e, he, hEq⟩ := List.mem_map.mp hc
    exact hzw (hEq ▸ List.mem_map_of_mem (fun e => e.1)
      (List.mem_of_mem_filter he))
  · simp only [resolveMeta]
    intro hc
    obtain ⟨e, he, hEq⟩ := List.mem_map.mp hc
    exact hzw (hEq ▸ List.mem_map_of_mem (fun e => e.1)
      (List.mem_of_mem_filter he))

/-- Claim C8: registration is last-write-wins, not merging: registering the
same class a second time with different metadata overwrites the registry
entry, so `getDecoratorsMeta` afterwards returns the metadata resolved from
the second registration only. -/
theorem claim_C8 (dev1 dev2 : Bool) (ctor : Ctor) (proto p1 p2 : Prototype)
    (meta1 meta2 : RegisterDecoratorMeta) (st st1 st2 : EngineState)
    (hdiff : meta1 ≠ meta2)
    (h1 : registerDecorators dev1 ctor proto meta1 st = Except.ok (p1, st1))
    (h2 : registerDecorators dev2 ctor p1 meta2 st1 = Except.ok (p2, st2)) :
    getDecoratorsMeta ctor st2 = resolveMeta meta2 ∧
    registryLookup st2.registry ctor = some (resolveMeta meta2) := by
  obtain ⟨hlook, hmeta⟩ := registerDecorators_ok_getMeta _ _ _ _ _ _ _ h2
  exact ⟨hmeta, hlook⟩

theorem claim_C3_witness :
    (getDecoratorsMeta 0 (setDecoratorsMeta 0
      { apiMethods := [], apiFields := ["x"], wiredMethods := [],
        wiredFields := [], fields := none } emptyEngineState)).apiFields =
      [(("x" : String), ({ config := 0 } : PropCompilerDef))].map
        (fun e => e.1) ∧
    ∀ n ∈ [(("x" : String), ({ config := 0 } : PropCompilerDef))].map
        (fun e => e.1),
      ((getDecoratorsMeta 0 (setDecoratorsMeta 0
        { apiMethods := [], apiFields := ["x"], wiredMethods := [],
          wiredFields := [], fields := none }
        emptyEngineState)).apiFields).count n = 1 :=
  claim_C3 true 0 [] [("x", createPublicPropertyDescriptor "x")]
    { publicProps := some [("x", { config := 0 })] } emptyEngineState
    (setDecoratorsMeta 0
      { apiMethods := [], apiFields := ["x"], wiredMethods := [],
        wiredFields := [], fields := none } emptyEngineState)
    [("x", { config := 0 })] rfl (by decide) (by decide) rfl

theorem claim_C7_witness :
    "z" ∉ (getDecoratorsMeta 0 (setDecoratorsMeta 0
      { apiMethods := [], apiFields := [], wiredMethods := [],
        wiredFields := [], fields := none } emptyEngineState)).apiFields ∧
    "z" ∉ (getDecoratorsMeta 0 (setDecoratorsMeta 0
      { apiMethods := [], apiFields := [], wiredMethods := [],
        wiredFields := [], fields := none } emptyEngineState)).apiMethods ∧
    "z" ∉ (getDecoratorsMeta 0 (setDecoratorsMeta 0
      { apiMethods := [], apiFields := [], wiredMethods := [],
        wiredFields := [], fields := none } emptyEngineState)).wiredFields ∧
    "z" ∉ (getDecoratorsMeta 0 (setDecoratorsMeta 0
      { apiMethods := [], apiFields := [], wiredMethods := [],
        wiredFields := [], fields := none } emptyEngineState)).wiredMethods :=
  claim_C7 true 0 [] [("z", internalTrackDecorator "z")]
    { track := some ["z"] } emptyEngineState
    (setDecoratorsMeta 0
      { apiMethods := [], apiFields := [], wiredMethods := [],
        wiredFields := [], fields := none } emptyEngineState)
    "z" (by decide) (by decide) (by decide) (by decide) rfl

theorem claim_C8_witness :
    getDecoratorsMeta 0 (setDecoratorsMeta 0
      { apiMethods := ["m"], apiFields := [], wiredMethods := [],
        wiredFields := [], fields := none }
      (setDecoratorsMeta 0
        { apiMethods := [], apiFields := [], wiredMethods := [],
          wiredFields := [], fields := none } emptyEngineState)) =
      resolveMeta { publicMethods := some ["m"] } ∧
    registryLookup (setDecoratorsMeta 0
      { apiMethods := ["m"], apiFields := [], wiredMethods := [],
        wiredFields := [], fields := none }
      (setDecoratorsMeta 0
        { apiMethods := [], apiFields := [], wiredMethods := [],
          wiredFields := [], fields := none } emptyEngineState)).registry 0 =
      some (resolveMeta { publicMethods := some ["m"] }) :=
  claim_C8 true true 0
    [("m", { value := some (JSValue.func (FnTag.user 0)),
             writable := some true })]
    [("m", { value := some (JSValue.func (FnTag.user 0)),
             writable := some true })]
    [("m", { value := some (JSValue.func (FnTag.user 0)),
             writable := some true })]
    { } { publicMethods := some ["m"] } emptyEngineState
    (setDecoratorsMeta 0
      { apiMethods := [], apiFields := [], wiredMethods := [],
        wiredFields := [], fields := none } emptyEngineState)
    (setDecoratorsMeta 0
      { apiMethods := ["m"], apiFields := [], wiredMethods := [],
        wiredFields := [], fields := none }
      (setDecoratorsMeta 0
        { apiMethods := [], apiFields := [], wiredMethods := [],
          wiredFields := [], fields := none } emptyEngineState))
    (by decide) rfl rfl

/-- Claim C9: the wire dispatch tests the `method` flag for strict equality
with the number `1`: a wire entry whose flag holds any other value (the
boolean `true`, the number `2`, absence, ...) is processed as a field
binding — the wire-field descriptor is installed over the prototype member
and exactly one `storeWiredFieldMeta` call is made — rather than as a
method binding. -/
theorem claim_C9 (dev : Bool) (ctor : Ctor) (proto p' : Prototype)
    (meta : RegisterDecoratorMeta) (st st' : EngineState) (name : String)
    (wdef : WireCompilerDef)
    (hw : (name, wdef) ∈ meta.wire.getD [])
    (hm : ¬(wdef.method = some (JSValue.num 1)))
    (hnd : ((meta.wire.getD []).map (fun e => e.1)).Nodup)
    (htr : name ∉ meta.track.getD [])
    (hok : registerDecorators dev ctor proto meta st = Except.ok (p', st')) :
    protoLookup p' name = some (internalWireFieldDecorator name) ∧
    name ∈ (getDecoratorsMeta ctor st').wiredFields ∧
    List.count (WiredFieldCall.mk ctor name wdef.adapter wdef.config)
        st'.wiredFieldCalls =
      List.count (WiredFieldCall.mk ctor name wdef.adapter wdef.config)
        st.wiredFieldCalls + 1 := by
  obtain ⟨proto1, af, am, proto2, st2, wms, wfs, hpp, hpm, hwq, ht, hf, hst⟩ :=
    registerDecorators_ok_decomp _ _ _ _ _ _ _ hok
  obtain ⟨hp2, hwfmem, hcount⟩ := processWire_ok_field dev ctor
    (meta.wire.getD []) proto1 proto2 st st2 [] [] wms wfs name wdef
    hm hnd hw hwq
  have hM : getDecoratorsMeta ctor st' =
      { apiMethods := am, apiFields := af, wiredMethods := wms,
        wiredFields := wfs, fields := meta.fields } := by
    rw [hst]
    simp [getDecoratorsMeta, setDecoratorsMeta, registryLookup_registrySet_self]
  refine ⟨?_, ?_, ?_⟩
  · rw [processTrack_ok_preserve dev _ proto2 p' name htr ht, hp2]
  · rw [hM]
    exact hwfmem
  · rw [hst]
    simpa [setDecoratorsMeta, wiredFieldCallOf] using hcount

theorem claim_C9_witness :
    protoLookup [("y", internalWireFieldDecorator "y")] "y" =
      some (internalWireFieldDecorator "y") ∧
    "y" ∈ (getDecoratorsMeta 0 (setDecoratorsMeta 0
      { apiMethods := [], apiFields := [], wiredMethods := [],
        wiredFields := ["y"], fields := none }
      { registry := [],
        wiredFieldCalls := [WiredFieldCall.mk 0 "y" 7 9],
        wiredMethodCalls := [] })).wiredFields ∧
    List.count (WiredFieldCall.mk 0 "y" 7 9)
        (setDecoratorsMeta 0
          { apiMethods := [], apiFields := [], wiredMethods := [],
            wiredFields := ["y"], fields := none }
          { registry := [],
            wiredFieldCalls := [WiredFieldCall.mk 0 "y" 7 9],
            wiredMethodCalls := [] }).wiredFieldCalls =
      List.count (WiredFieldCall.mk 0 "y" 7 9)
        emptyEngineState.wiredFieldCalls + 1 :=
  claim_C9 true 0 [] [("y", internalWireFieldDecorator "y")]
    { wire := some [("y", { method := some (JSValue.boolean true),
                            adapter := 7, config := 9 })] }
    emptyEngineState
    (setDecoratorsMeta 0
      { apiMethods := [], apiFields := [], wiredMethods := [],
        wiredFields := ["y"], fields := none }
      { registry := [],
        wiredFieldCalls := [WiredFieldCall.mk 0 "y" 7 9],
        wiredMethodCalls := [] })
    "y" { method := some (JSValue.boolean true), adapter := 7, config := 9 }
    (by decide) (by decide) (by decide) (by decide) rfl

/-- Claim C2: wire dispatch per entry. Method flag set (strictly `1`): the
name lands in resolved `wiredMethods`, `storeWiredMethodMeta` is called with
the class, the name, the adapter, the existing prototype method function and
the config callback, and the prototype binding for the name is untouched.
Method flag unset: `storeWiredFieldMeta` is invoked exactly once with the
class, name, adapter and config callback, the name lands in resolved
`wiredFields`, and the wire-field descriptor is installed under the name. -/
theorem claim_C2 (dev : Bool) (ctor : Ctor) (proto p' : Prototype)
    (meta : RegisterDecoratorMeta) (st st' : EngineState) (name : String)
    (wdef : WireCompilerDef)
    (hw : (name, wdef) ∈ meta.wire.getD [])
    (hnd : ((meta.wire.getD []).map (fun e => e.1)).Nodup)
    (hnp : name ∉ (meta.publicProps.getD []).map (fun e => e.1))
    (htr : name ∉ meta.track.getD [])
    (hok : registerDecorators dev ctor proto meta st = Except.ok (p', st')) :
    (∀ d f, wdef.method = some (JSValue.num 1) →
      protoLookup proto name = some d → d.get = none → d.value = some f →
      name ∈ (getDecoratorsMeta ctor st').wiredMethods ∧
      WiredMethodCall.mk ctor name wdef.adapter f wdef.config ∈
        st'.wiredMethodCalls ∧
      protoLookup p' name = protoLookup proto name) ∧
    (wdef.method = none →
      List.count (WiredFieldCall.mk ctor name wdef.adapter wdef.config)
          st'.wiredFieldCalls =
        List.count (WiredFieldCall.mk ctor name wdef.adapter wdef.config)
          st.wiredFieldCalls + 1 ∧
      name ∈ (getDecoratorsMeta ctor st').wiredFields ∧
      protoLookup p' name = some (internalWireFieldDecorator name)) := by
  obtain ⟨proto1, af, am, proto2, st2, wms, wfs, hpp, hpm, hwq, ht, hf, hst⟩ :=
    registerDecorators_ok_decomp _ _ _ _ _ _ _ hok
  have hM : getDecoratorsMeta ctor st' =
      { apiMethods := am, apiFields := af, wiredMethods := wms,
        wiredFields := wfs, fields := meta.fields } := by
    rw [hst]
    simp [getDecoratorsMeta, setDecoratorsMeta, registryLookup_registrySet_self]
  have hpres1 : protoLookup proto1 name = protoLookup proto name :=
    processPublicProps_ok_preserve _ _ _ _ _ _ _ _ hnp hpp
  constructor
  · intro d f hm1 hd hdg hdv
    obtain ⟨hp2, hcall, hwm⟩ := processWire_ok_method dev ctor
      (meta.wire.getD []) proto1 proto2 st st2 [] [] wms wfs name wdef
      hm1 hnd hw hwq
    have hval : protoGetValue proto1 name = f := by
      rw [protoGetValue_congr _ _ _ hpres1]
      simp [protoGetValue, hd, hdg, hdv]
    refine ⟨?_, ?_, ?_⟩
    · rw [hM]
      exact hwm
    · rw [hst]
      simp only [setDecoratorsMeta]
      rw [← hval]
      exact hcall
    · rw [processTrack_ok_preserve dev _ proto2 p' name htr ht, hp2, hpres1]
  · intro hm0
    have hm : ¬(wdef.method = some (JSValue.num 1)) := by
      rw [hm0]
      simp
    obtain ⟨hp2, hwfmem, hcount⟩ := processWire_ok_field dev ctor
      (meta.wire.getD []) proto1 proto2 st st2 [] [] wms wfs name wdef
      hm hnd hw hwq
    refine ⟨?_, ?_, ?_⟩
    · rw [hst]
      simpa [setDecoratorsMeta, wiredFieldCallOf] using hcount
    · rw [hM]
      exact hwfmem
    · rw [processTrack_ok_preserve dev _ proto2 p' name htr ht, hp2]

theorem claim_C2_witness :
    (∀ d f, (some (JSValue.num 1) : Option JSValue) = some (JSValue.num 1) →
      protoLookup [("w", PropertyDescriptor.mk
        (some (JSValue.func (FnTag.user 3))) none none (some true))] "w" = some d →
      PropertyDescriptor.get d = none →
      PropertyDescriptor.value d = some f →
      "w" ∈ (getDecoratorsMeta 0 (setDecoratorsMeta 0
        { apiMethods := [], apiFields := [], wiredMethods := ["w"],
          wiredFields := [], fields := none }
        { registry := [], wiredFieldCalls := [],
          wiredMethodCalls := [WiredMethodCall.mk 0 "w" 4
            (JSValue.func (FnTag.user 3)) 5] })).wiredMethods ∧
      WiredMethodCall.mk 0 "w" 4 f 5 ∈ (setDecoratorsMeta 0
        { apiMethods := [], apiFields := [], wiredMethods := ["w"],
          wiredFields := [], fields := none }
        { registry := [], wiredFieldCalls := [],
          wiredMethodCalls := [WiredMethodCall.mk 0 "w" 4
            (JSValue.func (FnTag.user 3)) 5] }).wiredMethodCalls ∧
      protoLookup [("w", PropertyDescriptor.mk
        (some (JSValue.func (FnTag.user 3))) none none (some true))] "w" =
        protoLookup [("w", PropertyDescriptor.mk
          (some (JSValue.func (FnTag.user 3))) none none (some true))] "w") ∧
    ((some (JSValue.num 1) : Option JSValue) = none →
      List.count (WiredFieldCall.mk 0 "w" 4 5) (setDecoratorsMeta 0
        { apiMethods := [], apiFields := [], wiredMethods := ["w"],
          wiredFields := [], fields := none }
        { registry := [], wiredFieldCalls := [],
          wiredMethodCalls := [WiredMethodCall.mk 0 "w" 4
            (JSValue.func (FnTag.user 3)) 5] }).wiredFieldCalls =
        List.count (WiredFieldCall.mk 0 "w" 4 5)
          emptyEngineState.wiredFieldCalls + 1 ∧
      "w" ∈ (getDecoratorsMeta 0 (setDecoratorsMeta 0
        { apiMethods := [], apiFields := [], wiredMethods := ["w"],
          wiredFields := [], fields := none }
        { registry := [], wiredFieldCalls := [],
          wiredMethodCalls := [WiredMethodCall.mk 0 "w" 4
            (JSValue.func (FnTag.user 3)) 5] })).wiredFields ∧
      protoLookup [("w", PropertyDescriptor.mk
        (some (JSValue.func (FnTag.user 3))) none none (some true))] "w" =
        some (internalWireFieldDecorator "w")) :=
  claim_C2 true 0
    [("w", PropertyDescriptor.mk
      (some (JSValue.func (FnTag.user 3))) none none (some true))]
    [("w", PropertyDescriptor.mk
      (some (JSValue.func (FnTag.user 3))) none none (some true))]
    { wire := some [("w", { method := some (JSValue.num 1), adapter := 4,
                            config := 5 })] }
    emptyEngineState
    (setDecoratorsMeta 0
      { apiMethods := [], apiFields := [], wiredMethods := ["w"],
        wiredFields := [], fields := none }
      { registry := [], wiredFieldCalls := [],
        wiredMethodCalls := [WiredMethodCall.mk 0 "w" 4
          (JSValue.func (FnTag.user 3)) 5] })
    "w" { method := some (JSValue.num 1), adapter := 4, config := 5 }
    (by decide) (by decide) (by decide) (by decide) rfl

end LWC
